import Mathlib

/-!
Verification of the OpenClaw skills repository against its specification.

The Python scripts are embedded shallowly:
- Python dictionaries become association lists (`List (String × _)`) with
  insertion-order update semantics (`dictGet` / `dictSet`).
- Python floats become rationals (`ℚ`); the arithmetic in the scripts is
  plain linear blending, so the rational semantics matches the formulas.
- Python strings become `String` where only equality and concatenation
  matter, and `List Char` (the sequence of code points) where slicing and
  substring containment matter.
- Fallible operations (network fetches, parsing, list comprehensions over
  untrusted JSON) are modelled with `Except String _`; a bare Python
  `except` handler becomes a `match` on the `Except` value.
-/

/-- Lookup in a Python dictionary modelled as an association list:
`d.get(k)` / `d[k]`. -/
def dictGet {α : Type} (d : List (String × α)) (k : String) : Option α :=
  match d with
  | [] => none
  | (k1, v) :: rest => if k1 = k then some v else dictGet rest k

/-- Assignment `d[k] = x` in a Python dictionary: update in place if the
key is present, otherwise append at the end (insertion order). -/
def dictSet {α : Type} (d : List (String × α)) (k : String) (x : α) : List (String × α) :=
  match d with
  | [] => [(k, x)]
  | (k1, v) :: rest => if k1 = k then (k1, x) :: rest else (k1, v) :: dictSet rest k x

theorem dictGet_dictSet {α : Type} (d : List (String × α)) (k k2 : String) (x : α) :
    dictGet (dictSet d k x) k2 = if k = k2 then some x else dictGet d k2 := by
  induction d with
  | nil =>
    by_cases h : k = k2 <;> simp [dictGet, dictSet, h]
  | cons p rest ih =>
    obtain ⟨k1, v⟩ := p
    by_cases h1 : k1 = k
    · by_cases h2 : k = k2
      · simp [dictGet, dictSet, h1, h2, h1.trans h2]
      · have h3 : ¬ k1 = k2 := fun h => h2 (h1.symm.trans h)
        simp [dictGet, dictSet, h1, h2, h3]
    · by_cases h2 : k1 = k2
      · have h3 : ¬ k = k2 := fun h => h1 (h2.trans h.symm)
        have h4 : ¬ k2 = k := fun h => h1 (h2.trans h)
        simp [dictGet, dictSet, h1, h2, h3, h4]
      · simp [dictGet, dictSet, h1, h2, ih]

-- ===========================================================================
-- blacksnow_test.py : Normalizer and Accumulator
-- ===========================================================================

/-- A normalized signal, from the `NormalizedSignal` dataclass in
`blacksnow_test.py`. -/
structure NormalizedSignal where
  normalized_id : String
  ontology_path : String
  signal_type : String
  magnitude : ℚ
  temporal_marker : String
  source_refs : List String
deriving DecidableEq

/-- One update step of `Accumulator.accumulate`:
`posterior = prior + likelihood * (1 - prior)`, clamped at `0.99`. -/
def accumStep (prior likelihood : ℚ) : ℚ :=
  min (prior + likelihood * (1 - prior)) (99 / 100)

/-- `Accumulator.accumulate` from `blacksnow_test.py`: fold over the
signals in list order, threading the `belief_states` dictionary; a path
not yet present starts from `0.0`. -/
def Accumulator.accumulate (belief_states : List (String × ℚ)) :
    List NormalizedSignal → List (String × ℚ)
  | [] => belief_states
  | sig :: rest =>
      Accumulator.accumulate
        (dictSet belief_states sig.ontology_path
          (accumStep ((dictGet belief_states sig.ontology_path).getD 0) sig.magnitude))
        rest

theorem accumulate_lookup (sigs : List NormalizedSignal) (bs : List (String × ℚ)) (v : String) :
    dictGet (Accumulator.accumulate bs sigs) v =
      if v ∈ sigs.map (fun s => s.ontology_path) then
        some (((sigs.filter (fun s => s.ontology_path == v)).map (fun s => s.magnitude)).foldl
          accumStep ((dictGet bs v).getD 0))
      else dictGet bs v := by
  induction sigs generalizing bs with
  | nil => simp [Accumulator.accumulate]
  | cons s rest ih =>
    rw [Accumulator.accumulate, ih]
    by_cases hv : s.ontology_path = v
    · subst hv
      rw [dictGet_dictSet, if_pos rfl]
      have hmap : s.ontology_path ∈ (s :: rest).map (fun t => t.ontology_path) := by simp
      rw [if_pos hmap]
      have hfc : (s :: rest).filter (fun t => t.ontology_path == s.ontology_path)
          = s :: rest.filter (fun t => t.ontology_path == s.ontology_path) := by
        simp [List.filter_cons]
      rw [hfc]
      by_cases hmem : s.ontology_path ∈ rest.map (fun t => t.ontology_path)
      · rw [if_pos hmem]
        simp
      · rw [if_neg hmem]
        have hfil : rest.filter (fun t => t.ontology_path == s.ontology_path) = [] := by
          rw [List.filter_eq_nil_iff]
          intro a ha hbe
          exact hmem (List.mem_map.mpr ⟨a, ha, by simpa using hbe⟩)
        simp [hfil]
    · rw [dictGet_dictSet, if_neg hv]
      have hfc : (s :: rest).filter (fun t => t.ontology_path == v)
          = rest.filter (fun t => t.ontology_path == v) := by
        simp [List.filter_cons, hv]
      rw [hfc]
      have hmm : v ∈ (s :: rest).map (fun t => t.ontology_path)
          ↔ v ∈ rest.map (fun t => t.ontology_path) := by
        simp only [List.map_cons, List.mem_cons]
        constructor
        · rintro (h | h)
          · exact absurd h.symm hv
          · exact h
        · exact Or.inr
      by_cases hmem : v ∈ rest.map (fun t => t.ontology_path)
      · rw [if_pos hmem, if_pos (hmm.mpr hmem)]
      · rw [if_neg hmem, if_neg (fun h => hmem (hmm.mp h))]

/-- Claim C1: starting from a fresh accumulator, `Accumulator.accumulate`
assigns, to exactly the ontology paths occurring in the input, the value
obtained by folding `min(prior + magnitude * (1 - prior), 0.99)` from `0.0`
over the magnitudes of the matching signals in list order; paths not in
the input are absent from the returned mapping. -/
theorem accumulate_spec (sigs : List NormalizedSignal) (v : String) :
    (v ∈ sigs.map (fun s => s.ontology_path) →
      dictGet (Accumulator.accumulate [] sigs) v =
        some (((sigs.filter (fun s => s.ontology_path == v)).map (fun s => s.magnitude)).foldl
          accumStep 0))
    ∧ (v ∉ sigs.map (fun s => s.ontology_path) →
      dictGet (Accumulator.accumulate [] sigs) v = none) := by
  constructor
  · intro hmem
    rw [accumulate_lookup]
    simp [hmem, dictGet]
  · intro hmem
    rw [accumulate_lookup]
    simp [hmem, dictGet]

/-- A concrete normalized signal used to instantiate the accumulator
theorems. -/
def sigEx : NormalizedSignal :=
  ⟨"a1b2", "infra.energy.oil", "deferral", 1 / 2, "2026-Q1", ["sam.gov:x"]⟩

theorem accumulate_spec_witness :
    dictGet (Accumulator.accumulate [] [sigEx]) "infra.energy.oil" =
      some ((([sigEx].filter (fun s => s.ontology_path == "infra.energy.oil")).map
        (fun s => s.magnitude)).foldl accumStep 0) :=
  (accumulate_spec [sigEx] "infra.energy.oil").1 (by decide)

/-- Claim C2: one accumulator update step is monotone in the prior for a
fixed magnitude, and monotone in the magnitude for a fixed prior, when
priors and magnitudes lie in the unit interval. -/
theorem accumStep_monotone (p1 p2 m1 m2 : ℚ)
    (hp1 : 0 ≤ p1) (hp1u : p1 ≤ 1) (hp2 : 0 ≤ p2) (hp2u : p2 ≤ 1)
    (hm1 : 0 ≤ m1) (hm1u : m1 ≤ 1) (hm2 : 0 ≤ m2) (hm2u : m2 ≤ 1) :
    (p1 ≤ p2 → accumStep p1 m1 ≤ accumStep p2 m1)
    ∧ (m1 ≤ m2 → accumStep p1 m1 ≤ accumStep p1 m2) := by
  constructor
  · intro hp
    apply min_le_min _ le_rfl
    nlinarith
  · intro hm
    apply min_le_min _ le_rfl
    nlinarith

theorem accumStep_monotone_witness :
    (accumStep (1 / 5) (1 / 2) ≤ accumStep (2 / 5) (1 / 2))
    ∧ (accumStep (1 / 5) (1 / 2) ≤ accumStep (1 / 5) (3 / 4)) :=
  ⟨(accumStep_monotone (1 / 5) (2 / 5) (1 / 2) (3 / 4) (by norm_num) (by norm_num)
      (by norm_num) (by norm_num) (by norm_num) (by norm_num) (by norm_num) (by norm_num)).1
      (by norm_num),
   (accumStep_monotone (1 / 5) (2 / 5) (1 / 2) (3 / 4) (by norm_num) (by norm_num)
      (by norm_num) (by norm_num) (by norm_num) (by norm_num) (by norm_num) (by norm_num)).2
      (by norm_num)⟩

-- ===========================================================================
-- omnipublisher/guards/compliance.py : ComplianceGuard
-- ===========================================================================

/-- The compliance ledger, from `compliance.py`: a JSON object with a
`hashes` map (target key to list of content hashes) and a `last_posts`
map (target key to the Unix time of the last logged post). -/
structure Ledger where
  hashes : List (String × List String)
  last_posts : List (String × ℚ)
deriving DecidableEq

/-- The target key: `f"{platform}:{target}" if target else platform`.
A missing target or an empty-string target (both falsy in Python) fall
back to the bare platform name. -/
def targetKey (platform : String) (target : Option String) : String :=
  match target with
  | some t => if t = "" then platform else platform ++ ":" ++ t
  | none => platform

/-- `ComplianceGuard.check` from `compliance.py`. The SHA-256 hex digest
is modelled by the function parameter `hashFn` (it is stdlib code, used
only as a deterministic fingerprint); `now` is the value of
`time.time()`. Returns `true` when posting is safe to proceed. -/
def ComplianceGuard.check (L : Ledger) (hashFn : String → String)
    (platform content_text : String) (target : Option String) (now : ℚ) : Bool :=
  let content_hash := hashFn content_text
  let target_key := targetKey platform target
  if content_hash ∈ (dictGet L.hashes target_key).getD [] then false
  else if now - (dictGet L.last_posts target_key).getD 0 < 120 then false
  else true

/-- `ComplianceGuard.log_post` from `compliance.py`: append the content
hash under the target key and record the posting time. -/
def ComplianceGuard.log_post (L : Ledger) (hashFn : String → String)
    (platform content_text : String) (target : Option String) (now : ℚ) : Ledger :=
  let content_hash := hashFn content_text
  let target_key := targetKey platform target
  ⟨dictSet L.hashes target_key ((dictGet L.hashes target_key).getD [] ++ [content_hash]),
   dictSet L.last_posts target_key now⟩

/-- Claim C3: hashing is deterministic (identical text, identical hash);
after `log_post`, a `check` of the same text for the same platform and
target returns `false` (duplicate hash), and a `check` of any text for
that key returns `false` while less than 120 seconds have elapsed since
the logged post. -/
theorem complianceGuard_spec (L : Ledger) (hashFn : String → String)
    (platform content_text other_text : String) (target : Option String) (t1 t2 : ℚ) :
    (∀ s1 s2 : String, s1 = s2 → hashFn s1 = hashFn s2)
    ∧ ComplianceGuard.check (ComplianceGuard.log_post L hashFn platform content_text target t1)
        hashFn platform content_text target t2 = false
    ∧ (t2 - t1 < 120 →
      ComplianceGuard.check (ComplianceGuard.log_post L hashFn platform content_text target t1)
        hashFn platform other_text target t2 = false) := by
  refine ⟨fun s1 s2 h => by rw [h], ?_, ?_⟩
  · simp only [ComplianceGuard.check, ComplianceGuard.log_post, dictGet_dictSet, if_pos rfl]
    have hmem : hashFn content_text ∈
        (dictGet L.hashes (targetKey platform target)).getD [] ++ [hashFn content_text] :=
      List.mem_append_right _ (List.mem_singleton.mpr rfl)
    simp [hmem]
  · intro ht
    simp only [ComplianceGuard.check, ComplianceGuard.log_post, dictGet_dictSet, if_pos rfl]
    by_cases hdup : hashFn other_text ∈
        (dictGet L.hashes (targetKey platform target)).getD [] ++ [hashFn content_text]
    · simp [hdup]
    · simp [hdup, Option.getD_some, ht]

theorem complianceGuard_spec_witness :
    (0 : ℚ) - 0 < 120
    ∧ ComplianceGuard.check
        (ComplianceGuard.log_post ⟨[], []⟩ (fun s => s) "twitter" "hello" (some "feed") 0)
        (fun s => s) "twitter" "world" (some "feed") 0 = false :=
  ⟨by norm_num,
   (complianceGuard_spec ⟨[], []⟩ (fun s => s) "twitter" "hello" "world" (some "feed") 0 0).2.2
     (by norm_num)⟩

-- ===========================================================================
-- omnipublisher/normalizers/content.py : ContentNormalizer
-- ===========================================================================

/-- The value returned by `ContentNormalizer.normalize`: a plain string
for most platforms, a title/description pair for YouTube. Python strings
are modelled as their sequences of code points (`List Char`). -/
inductive PlatformContent
  | plain (s : List Char)
  | titled (title : List Char) (description : List Char)
deriving DecidableEq

/-- `ContentNormalizer._to_twitter`:
`text[:277] + "..." if len(text) > 280 else text`. -/
def ContentNormalizer.to_twitter (text : List Char) : List Char :=
  if 280 < text.length then text.take 277 ++ "...".data else text

/-- `ContentNormalizer._to_instagram`: append a fixed hashtag block. -/
def ContentNormalizer.to_instagram (text : List Char) : List Char :=
  text ++ "\n\n#reels #viral #content".data

/-- `ContentNormalizer._to_youtube`: first line truncated to 100
characters as the title, the full text as the description. -/
def ContentNormalizer.to_youtube (text : List Char) : PlatformContent :=
  PlatformContent.titled ((text.takeWhile (fun c => c ≠ '\n')).take 100) text

/-- `ContentNormalizer._to_telegram`: markdown header plus the text. -/
def ContentNormalizer.to_telegram (text : List Char) : List Char :=
  "📢 **Update**\n\n".data ++ text

/-- `ContentNormalizer._to_whatsapp`: bold marker plus the text. -/
def ContentNormalizer.to_whatsapp (text : List Char) : List Char :=
  "*Update*\n\n".data ++ text

/-- `ContentNormalizer.normalize` from `content.py`: dispatch on the
platform name, returning the input unchanged for unknown platforms. -/
def ContentNormalizer.normalize (text : List Char) (platform : String) : PlatformContent :=
  if platform = "twitter" then PlatformContent.plain (ContentNormalizer.to_twitter text)
  else if platform = "instagram" then PlatformContent.plain (ContentNormalizer.to_instagram text)
  else if platform = "youtube" then ContentNormalizer.to_youtube text
  else if platform = "telegram" then PlatformContent.plain (ContentNormalizer.to_telegram text)
  else if platform = "whatsapp" then PlatformContent.plain (ContentNormalizer.to_whatsapp text)
  else PlatformContent.plain text

/-- Claim C10: for the twitter platform, `ContentNormalizer.normalize`
returns a string of at most 280 characters: the text unchanged when it
has at most 280 characters, and otherwise the first 277 characters
followed by three dots, exactly 280 characters in total. -/
theorem normalize_twitter_spec (text : List Char) :
    ContentNormalizer.normalize text "twitter"
      = PlatformContent.plain (ContentNormalizer.to_twitter text)
    ∧ (ContentNormalizer.to_twitter text).length ≤ 280
    ∧ (text.length ≤ 280 → ContentNormalizer.to_twitter text = text)
    ∧ (280 < text.length →
        ContentNormalizer.to_twitter text = text.take 277 ++ "...".data
        ∧ (ContentNormalizer.to_twitter text).length = 280) := by
  refine ⟨rfl, ?_, ?_, ?_⟩
  · by_cases h : 280 < text.length
    · have h277 : (text.take 277).length = 277 := by
        rw [List.length_take]
        omega
      simp [ContentNormalizer.to_twitter, h, h277]
    · simp [ContentNormalizer.to_twitter, h]
      omega
  · intro h
    have : ¬ 280 < text.length := by omega
    simp [ContentNormalizer.to_twitter, this]
  · intro h
    have h277 : (text.take 277).length = 277 := by
      rw [List.length_take]
      omega
    constructor
    · simp [ContentNormalizer.to_twitter, h]
    · simp [ContentNormalizer.to_twitter, h, h277]

theorem normalize_twitter_spec_witness :
    ContentNormalizer.to_twitter "hi".data = "hi".data
    ∧ ContentNormalizer.to_twitter (List.replicate 281 'a')
        = (List.replicate 281 'a').take 277 ++ "...".data
    ∧ (ContentNormalizer.to_twitter (List.replicate 281 'a')).length = 280 :=
  ⟨(normalize_twitter_spec "hi".data).2.2.1 (by decide),
   ((normalize_twitter_spec (List.replicate 281 'a')).2.2.2
     (by simp only [List.length_replicate]; norm_num)).1,
   ((normalize_twitter_spec (List.replicate 281 'a')).2.2.2
     (by simp only [List.length_replicate]; norm_num)).2⟩

-- ===========================================================================
-- blacksnow_test.py : ONTOLOGY and Normalizer._detect_ontology
-- ===========================================================================

/-- Python `str.lower()` on a sequence of code points. -/
def lowerStr (s : List Char) : List Char := s.map Char.toLower

/-- Whether the needle matches at the front of the haystack. -/
def subAt : List Char → List Char → Bool
  | [], _ => true
  | _ :: _, [] => false
  | a :: as, b :: bs => a == b && subAt as bs

/-- Python substring containment `needle in hay` on code points. -/
def containsSub (needle : List Char) : List Char → Bool
  | [] => subAt needle []
  | c :: t => subAt needle (c :: t) || containsSub needle t

/-- The `ONTOLOGY` table from `blacksnow_test.py`, in source order. -/
def ONTOLOGY : List (String × List String) := [
  ("infra.energy.grid", ["grid", "power", "electricity", "outage", "transmission", "utility", "blackout"]),
  ("infra.energy.oil", ["oil", "petroleum", "crude", "refinery", "pipeline", "fuel", "gas"]),
  ("infra.transport.rail", ["rail", "railway", "train", "freight", "locomotive", "amtrak"]),
  ("infra.transport.port", ["port", "shipping", "container", "maritime", "dock", "cargo", "vessel"]),
  ("infra.transport.aviation", ["airport", "aviation", "flight", "airline", "faa", "aircraft"]),
  ("infra.transport.road", ["highway", "bridge", "road", "traffic", "trucking", "dot"]),
  ("labor.union", ["union", "strike", "grievance", "collective", "bargaining", "nlrb", "workers"]),
  ("labor.attrition", ["resignation", "attrition", "turnover", "layoff", "departure", "fired", "quit"]),
  ("legal.regulation", ["regulation", "compliance", "draft", "consultation", "amendment", "rule", "policy"]),
  ("supply.procurement", ["tender", "procurement", "contract", "bid", "rfp", "award", "solicitation"]),
  ("supply.inventory", ["inventory", "stockpile", "shortage", "buffer", "warehouse", "supply chain"]),
  ("emergency.disaster", ["disaster", "emergency", "storm", "hurricane", "tornado", "flood", "fire", "wildfire", "earthquake", "tsunami", "fema", "evacuation", "shelter"]),
  ("emergency.weather", ["winter storm", "blizzard", "ice storm", "severe weather", "heat wave", "drought", "snow", "freeze"]),
  ("emergency.public_health", ["pandemic", "outbreak", "epidemic", "quarantine", "public health", "cdc", "contamination"]),
  ("finance.credit", ["credit", "default", "bankruptcy", "debt", "loan", "mortgage", "foreclosure"]),
  ("finance.market", ["market", "stock", "trading", "volatility", "crash", "recession", "inflation"])]

/-- The per-category score in `Normalizer._detect_ontology`:
`sum(1 for kw in keywords if kw in text_lower)`. -/
def ontologyScore (tl : List Char) (keywords : List String) : Nat :=
  (keywords.filter (fun kw => containsSub kw.data tl)).length

/-- Python `max(scores, key=scores.get)` over the insertion-ordered score
dictionary: keep the current best and replace it only on a strictly
greater score, so the first key with the maximal score wins. -/
def maxLoop (best : String × Nat) : List (String × Nat) → String × Nat
  | [] => best
  | x :: rest => maxLoop (if best.2 < x.2 then x else best) rest

/-- `Normalizer._detect_ontology` from `blacksnow_test.py`: score every
ontology category on the lowercased text, keep the categories with at
least one keyword hit, and return the first one with the maximal score,
or `"unknown"` when no category scores. -/
def Normalizer.detect_ontology (text : List Char) : String :=
  match (ONTOLOGY.map (fun p => (p.1, ontologyScore (lowerStr text) p.2))).filter
      (fun p => decide (0 < p.2)) with
  | [] => "unknown"
  | q :: rest => (maxLoop q rest).1

theorem maxLoop_mem (best : String × Nat) (l : List (String × Nat)) :
    maxLoop best l = best ∨ maxLoop best l ∈ l := by
  induction l generalizing best with
  | nil => exact Or.inl rfl
  | cons x rest ih =>
    rw [maxLoop]
    by_cases h : best.2 < x.2
    · rw [if_pos h]
      rcases ih x with h1 | h1
      · exact Or.inr (by rw [h1]; exact List.mem_cons_self x rest)
      · exact Or.inr (List.mem_cons_of_mem x h1)
    · rw [if_neg h]
      rcases ih best with h1 | h1
      · exact Or.inl h1
      · exact Or.inr (List.mem_cons_of_mem x h1)

theorem maxLoop_ge (best : String × Nat) (l : List (String × Nat)) :
    best.2 ≤ (maxLoop best l).2 ∧ ∀ x ∈ l, x.2 ≤ (maxLoop best l).2 := by
  induction l generalizing best with
  | nil => exact ⟨le_rfl, by simp⟩
  | cons x rest ih =>
    rw [maxLoop]
    by_cases h : best.2 < x.2
    · rw [if_pos h]
      obtain ⟨h1, h2⟩ := ih x
      refine ⟨le_of_lt (lt_of_lt_of_le h h1), ?_⟩
      intro y hy
      rcases List.mem_cons.mp hy with rfl | hy
      · exact h1
      · exact h2 y hy
    · rw [if_neg h]
      obtain ⟨h1, h2⟩ := ih best
      refine ⟨h1, ?_⟩
      intro y hy
      rcases List.mem_cons.mp hy with rfl | hy
      · exact le_trans (le_of_not_lt h) h1
      · exact h2 y hy

theorem ontologyScore_eq_zero (tl : List Char) (kws : List String) :
    ontologyScore tl kws = 0 ↔ ∀ kw ∈ kws, containsSub kw.data tl = false := by
  unfold ontologyScore
  rw [List.length_eq_zero, List.filter_eq_nil_iff]
  constructor
  · intro h kw hkw
    simpa using h kw hkw
  · intro h kw hkw
    simp [h kw hkw]

/-- Claim C4: `Normalizer._detect_ontology` returns a category whose
keyword list attains the maximal number of keyword hits in the
lowercased text (positive, so the category has at least one hit), and
returns `"unknown"` exactly when no keyword of any category occurs in
the lowercased text. -/
theorem detect_ontology_spec (text : List Char) :
    (Normalizer.detect_ontology text = "unknown" ↔
      ∀ p ∈ ONTOLOGY, ∀ kw ∈ p.2, containsSub kw.data (lowerStr text) = false)
    ∧ (Normalizer.detect_ontology text ≠ "unknown" →
      ∃ kws, (Normalizer.detect_ontology text, kws) ∈ ONTOLOGY
        ∧ 0 < ontologyScore (lowerStr text) kws
        ∧ ∀ p ∈ ONTOLOGY,
            ontologyScore (lowerStr text) p.2 ≤ ontologyScore (lowerStr text) kws) := by
  cases hfil : (ONTOLOGY.map (fun p => (p.1, ontologyScore (lowerStr text) p.2))).filter
      (fun p => decide (0 < p.2)) with
  | nil =>
    have hres : Normalizer.detect_ontology text = "unknown" := by
      unfold Normalizer.detect_ontology
      rw [hfil]
    have hall : ∀ p ∈ ONTOLOGY, ontologyScore (lowerStr text) p.2 = 0 := by
      intro p hp
      have hmem : (p.1, ontologyScore (lowerStr text) p.2) ∈
          ONTOLOGY.map (fun q => (q.1, ontologyScore (lowerStr text) q.2)) :=
        List.mem_map.mpr ⟨p, hp, rfl⟩
      have := List.filter_eq_nil_iff.mp hfil _ hmem
      simpa using this
    have hrhs : ∀ p ∈ ONTOLOGY, ∀ kw ∈ p.2, containsSub kw.data (lowerStr text) = false :=
      fun p hp => (ontologyScore_eq_zero _ _).mp (hall p hp)
    exact ⟨iff_of_true hres hrhs, fun h => absurd hres h⟩
  | cons q rest =>
    have hres : Normalizer.detect_ontology text = (maxLoop q rest).1 := by
      unfold Normalizer.detect_ontology
      rw [hfil]
    have hmem : maxLoop q rest ∈ q :: rest := by
      rcases maxLoop_mem q rest with h | h
      · rw [h]; exact List.mem_cons_self q rest
      · exact List.mem_cons_of_mem q h
    have hmem2 : maxLoop q rest ∈
        (ONTOLOGY.map (fun p => (p.1, ontologyScore (lowerStr text) p.2))).filter
          (fun p => decide (0 < p.2)) := by
      rw [hfil]; exact hmem
    have hmem3 := List.mem_filter.mp hmem2
    obtain ⟨porig, hporig, heq⟩ := List.mem_map.mp hmem3.1
    have hpos : 0 < (maxLoop q rest).2 := by simpa using hmem3.2
    have hname : (maxLoop q rest).1 = porig.1 := by rw [← heq]
    have hscore : (maxLoop q rest).2 = ontologyScore (lowerStr text) porig.2 := by rw [← heq]
    have hnotunk : Normalizer.detect_ontology text ≠ "unknown" := by
      rw [hres, hname]
      have hnames : ∀ p ∈ ONTOLOGY, p.1 ≠ "unknown" := by decide
      exact hnames porig hporig
    have hmax : ∀ x ∈ q :: rest, x.2 ≤ (maxLoop q rest).2 := by
      intro x hx
      rcases List.mem_cons.mp hx with h | hx
      · rw [h]
        exact (maxLoop_ge q rest).1
      · exact (maxLoop_ge q rest).2 x hx
    have hmaxAll : ∀ p ∈ ONTOLOGY,
        ontologyScore (lowerStr text) p.2 ≤ (maxLoop q rest).2 := by
      intro p hp
      by_cases h0 : 0 < ontologyScore (lowerStr text) p.2
      · have hmemf : (p.1, ontologyScore (lowerStr text) p.2) ∈
            (ONTOLOGY.map (fun r => (r.1, ontologyScore (lowerStr text) r.2))).filter
              (fun r => decide (0 < r.2)) := by
          rw [List.mem_filter]
          exact ⟨List.mem_map.mpr ⟨p, hp, rfl⟩, by simpa using h0⟩
        rw [hfil] at hmemf
        exact hmax _ hmemf
      · omega
    have hrhsfalse :
        ¬ ∀ p ∈ ONTOLOGY, ∀ kw ∈ p.2, containsSub kw.data (lowerStr text) = false := by
      intro hall
      have h0 : ontologyScore (lowerStr text) porig.2 = 0 :=
        (ontologyScore_eq_zero _ _).mpr (hall porig hporig)
      rw [← hscore] at h0
      omega
    refine ⟨iff_of_false hnotunk hrhsfalse, fun _ => ⟨porig.2, ?_, ?_, ?_⟩⟩
    · rw [hres, hname, Prod.mk.eta]
      exact hporig
    · rw [← hscore]; exact hpos
    · intro p hp
      rw [← hscore]
      exact hmaxAll p hp

theorem detect_ontology_spec_witness :
    ∃ kws, (Normalizer.detect_ontology "oil".data, kws) ∈ ONTOLOGY
      ∧ 0 < ontologyScore (lowerStr "oil".data) kws
      ∧ ∀ p ∈ ONTOLOGY, ontologyScore (lowerStr "oil".data) p.2
          ≤ ontologyScore (lowerStr "oil".data) kws :=
  (detect_ontology_spec "oil".data).2 (by decide)

-- ===========================================================================
-- local-opportunity-radar-kashmir/scripts/source_scanner.py : TelegramScraper
-- ===========================================================================

/-- An HTTP response, as seen by `requests.get` in `source_scanner.py`. -/
structure HttpResponse where
  status : Nat
  text : String
deriving DecidableEq

/-- One `tgme_widget_message` element found by BeautifulSoup: the message
text `div` when present, and the `href` values of its anchors. -/
structure MsgElement where
  text_el : Option String
  hrefs : List String
deriving DecidableEq

/-- A scraped Telegram message record from `fetch_latest_messages`. -/
structure TgMessage where
  source : String
  text : String
  links : List String
  timestamp : String
deriving DecidableEq

/-- `TelegramScraper.fetch_latest_messages` from `source_scanner.py`.
The `requests.get` call is the `httpGet` argument (`Except.error` when
the request raises); BeautifulSoup parsing is the `soupParse` argument;
`now` is `datetime.now().isoformat()`. The whole body sits in a
`try`/`except` that prints a diagnostic and returns `[]` on any
exception; a non-200 status also returns `[]`. -/
def TelegramScraper.fetch_latest_messages (channel_id : String)
    (httpGet : Except String HttpResponse)
    (soupParse : String → Except String (List MsgElement))
    (now : String) : List TgMessage :=
  match httpGet with
  | Except.error _ => []
  | Except.ok response =>
    if response.status ≠ 200 then []
    else
      match soupParse response.text with
      | Except.error _ => []
      | Except.ok els =>
        els.filterMap (fun el =>
          el.text_el.map (fun t =>
            ⟨"Telegram: @" ++ channel_id, t,
             el.hrefs.filter (fun href => containsSub "t.me/iv".data href.data = false),
             now⟩))

-- ===========================================================================
-- blacksnow/scripts/harvester.py : FederalRegisterHarvester
-- ===========================================================================

/-- A raw signal, from the `RawSignal` dataclass in `harvester.py`; the
`metadata` dictionary is flattened into its three fields. -/
structure RawSignal where
  source_id : String
  source_name : String
  domain : String
  title : String
  raw_text : String
  url : String
  timestamp : String
  confidence : ℚ
  metadata_type : Option String
  metadata_agencies : List (Option String)
  metadata_docket_ids : List String
deriving DecidableEq

/-- One document from the Federal Register API response. Missing JSON
keys are `none`; the `agencies` list comprehension
`[a.get("name") for a in doc.get("agencies", [])]` can raise on a
malformed entry, so it is modelled as an `Except` value. -/
structure FRDoc where
  document_number : Option String
  title : Option String
  abstract : Option String
  html_url : Option String
  publication_date : Option String
  doc_type : Option String
  agencies : Except String (List (Option String))
  docket_ids : List String

/-- The default keyword list of `FederalRegisterHarvester.harvest`. -/
def defaultKeywords : List String :=
  ["grid", "energy", "infrastructure", "emergency", "defer"]

/-- The loop body of `FederalRegisterHarvester.harvest` for one document:
keyword-filter on the lowercased title plus abstract (skipping the
document when no keyword occurs), then build the `RawSignal`; building
the metadata can raise. `now` is `datetime.now(timezone.utc).isoformat()`. -/
def procDoc (now : String) (keywords : List String) (doc : FRDoc) :
    Except String (Option RawSignal) :=
  let title := doc.title.getD ""
  let abstract := doc.abstract.getD ""
  let text_lower := lowerStr (title ++ " " ++ abstract).data
  if ¬ keywords.any (fun kw => containsSub kw.data text_lower) then
    Except.ok none
  else do
    let ags ← doc.agencies
    Except.ok (some
      ⟨"fedreg:" ++ doc.document_number.getD "unknown",
       "Federal Register",
       "regulatory.federal",
       title.take 200,
       if abstract ≠ "" then abstract.take 1000 else title,
       doc.html_url.getD "",
       doc.publication_date.getD now,
       85 / 100,
       doc.doc_type,
       ags,
       doc.docket_ids⟩)

/-- The harvest loop over the result documents, accumulating signals;
when processing a document raises, the exception lands in the `except`
handler and the signals accumulated so far are returned. -/
def frLoop (now : String) (keywords : List String) (acc : List RawSignal) :
    List FRDoc → List RawSignal
  | [] => acc
  | d :: rest =>
    match procDoc now keywords d with
    | Except.error _ => acc
    | Except.ok none => frLoop now keywords acc rest
    | Except.ok (some s) => frLoop now keywords (acc ++ [s]) rest

/-- `FederalRegisterHarvester.harvest` from `harvester.py`. The `fetched`
argument is the outcome of `urllib.request.urlopen`, `response.read`,
`json.loads` and `data.get("results", [])` (an `Except.error` when any
of them raises); `keywords=None` selects the default list. -/
def FederalRegisterHarvester.harvest (now : String) (keywords : Option (List String))
    (fetched : Except String (List FRDoc)) : List RawSignal :=
  match fetched with
  | Except.error _ => []
  | Except.ok docs => frLoop now (keywords.getD defaultKeywords) [] docs

/-- Claim C5: the scrapers and harvesters degrade to empty results
instead of raising. A failing HTTP request or a failing parse makes
`fetch_latest_messages` return `[]`; a failing fetch or malformed
response makes `harvest` return `[]`; a document whose processing raises
mid-loop makes the harvest return exactly the signals accumulated before
the failure. Exceptions never propagate: both functions are total and
always return a list. -/
theorem degrade_to_empty (channel_id : String)
    (soupParse : String → Except String (List MsgElement))
    (now : String) (e : String) (keywords : Option (List String))
    (acc : List RawSignal) (d : FRDoc) (rest : List FRDoc) :
    TelegramScraper.fetch_latest_messages channel_id (Except.error e) soupParse now = []
    ∧ (∀ response : HttpResponse, response.status = 200 →
        soupParse response.text = Except.error e →
        TelegramScraper.fetch_latest_messages channel_id (Except.ok response) soupParse now = [])
    ∧ FederalRegisterHarvester.harvest now keywords (Except.error e) = []
    ∧ (procDoc now (keywords.getD defaultKeywords) d = Except.error e →
        frLoop now (keywords.getD defaultKeywords) acc (d :: rest) = acc) := by
  refine ⟨rfl, ?_, rfl, ?_⟩
  · intro response h200 hparse
    simp [TelegramScraper.fetch_latest_messages, h200, hparse]
  · intro hproc
    rw [frLoop, hproc]

/-- A Federal Register document whose title matches the keyword filter
but whose `agencies` entry is malformed, so that processing it raises. -/
def frDocEx : FRDoc :=
  ⟨some "2026-01234", some "Grid resilience standards", none, none, none, some "RULE",
   Except.error "TypeError", ["EERE-2026-0001"]⟩

/-- A well-formed Federal Register document that yields a signal. -/
def frDocOk : FRDoc :=
  ⟨some "2026-05678", some "Emergency energy order", some "Deferred grid maintenance.",
   some "https://example.org/doc", some "2026-02-04", some "NOTICE",
   Except.ok [some "Department of Energy"], []⟩

theorem degrade_to_empty_witness :
    TelegramScraper.fetch_latest_messages "jkssb_updates" (Except.ok ⟨200, "<html>"⟩)
        (fun _ => Except.error "TypeError") "2026-02-07" = []
    ∧ frLoop "2026-02-07" defaultKeywords
        (frLoop "2026-02-07" defaultKeywords [] [frDocOk]) [frDocEx, frDocOk]
      = frLoop "2026-02-07" defaultKeywords [] [frDocOk] :=
  ⟨(degrade_to_empty "jkssb_updates" (fun _ => Except.error "TypeError") "2026-02-07"
      "TypeError" none [] frDocEx []).2.1 ⟨200, "<html>"⟩ rfl rfl,
   (degrade_to_empty "jkssb_updates" (fun _ => Except.error "TypeError") "2026-02-07"
      "TypeError" none (frLoop "2026-02-07" defaultKeywords [] [frDocOk])
      frDocEx [frDocOk]).2.2.2 rfl⟩

-- ===========================================================================
-- blacksnow/scripts/memory.py : BlackSnowMemory.update_belief_states
-- ===========================================================================

/-- One history record `{"timestamp": ..., "value": ...}` appended by
`update_belief_states`. -/
structure HistEntry where
  timestamp : String
  value : ℚ
deriving DecidableEq

/-- The per-vector record `{"history": [...], "current": ...}` stored in
`state["belief_states"]`. -/
structure VectorEntry where
  history : List HistEntry
  current : ℚ
deriving DecidableEq

/-- The BlackSnow state object persisted in `state.json`; `_save_state`
writes this value verbatim, so persistence is modelled as the state value
returned by the update. -/
structure BSState where
  created_at : String
  last_harvest : Option String
  total_signals : Nat
  total_vectors : Nat
  belief_states : List (String × VectorEntry)
deriving DecidableEq

/-- The freshly initialised state from `_load_state` when no state file
exists: empty belief states and zero counters. -/
def initState (created : String) : BSState := ⟨created, none, 0, 0, []⟩

/-- Python `history[-100:]`: keep the last 100 entries. -/
def histTrunc (l : List HistEntry) : List HistEntry := l.drop (l.length - 100)

/-- The body of the `update_belief_states` loop for one vector: insert
`{"history": [], "current": belief}` when the vector is new, append the
new history record, truncate to the last 100 entries, and set
`current`. -/
def updateOne (bs : List (String × VectorEntry)) (vector : String) (belief : ℚ)
    (now : String) : List (String × VectorEntry) :=
  let entry := (dictGet bs vector).getD ⟨[], belief⟩
  dictSet bs vector ⟨histTrunc (entry.history ++ [⟨now, belief⟩]), belief⟩

/-- `BlackSnowMemory.update_belief_states` from `memory.py`: fold the
per-vector update over the supplied belief mapping and persist the
state. -/
def BlackSnowMemory.update_belief_states (st : BSState)
    (belief_states : List (String × ℚ)) (now : String) : BSState :=
  ⟨st.created_at, st.last_harvest, st.total_signals, st.total_vectors,
   belief_states.foldl (fun bs p => updateOne bs p.1 p.2 now) st.belief_states⟩

theorem histTrunc_length (l : List HistEntry) : (histTrunc l).length ≤ 100 := by
  unfold histTrunc
  rw [List.length_drop]
  omega

theorem histTrunc_getLast (l : List HistEntry) (x : HistEntry) :
    (histTrunc (l ++ [x])).getLast? = some x := by
  unfold histTrunc
  rw [List.length_append]
  simp only [List.length_singleton]
  by_cases h : l.length + 1 ≤ 100
  · have h0 : l.length + 1 - 100 = 0 := by omega
    rw [h0, List.drop_zero, List.getLast?_concat]
  · have hn : l.length + 1 - 100 ≤ l.length := by omega
    rw [List.drop_append_of_le_length hn, List.getLast?_concat]

theorem updateAll_notmem (B : List (String × ℚ)) (bs : List (String × VectorEntry))
    (now : String) (v : String) (hv : v ∉ B.map Prod.fst) :
    dictGet (B.foldl (fun bs p => updateOne bs p.1 p.2 now) bs) v = dictGet bs v := by
  induction B generalizing bs with
  | nil => rfl
  | cons p B ih =>
    simp only [List.map_cons, List.mem_cons, not_or] at hv
    have hne : ¬ p.1 = v := fun h => hv.1 h.symm
    rw [List.foldl_cons, ih _ hv.2]
    simp [updateOne, dictGet_dictSet, hne]

theorem updateAll_mem (B : List (String × ℚ)) (bs : List (String × VectorEntry))
    (now : String) (v : String) (b : ℚ)
    (hnd : (B.map Prod.fst).Nodup) (hv : (v, b) ∈ B) :
    dictGet (B.foldl (fun bs p => updateOne bs p.1 p.2 now) bs) v =
      some ⟨histTrunc ((((dictGet bs v).map VectorEntry.history).getD []) ++ [⟨now, b⟩]), b⟩ := by
  induction B generalizing bs with
  | nil => cases hv
  | cons p B ih =>
    rw [List.map_cons, List.nodup_cons] at hnd
    rw [List.foldl_cons]
    rcases List.mem_cons.mp hv with heq | hmem
    · have hp1 : p.1 = v := by rw [← heq]
      have hp2 : p.2 = b := by rw [← heq]
      have hkey : v ∉ B.map Prod.fst := hp1 ▸ hnd.1
      rw [updateAll_notmem B _ now v hkey]
      cases hbs : dictGet bs v <;>
        simp [updateOne, dictGet_dictSet, hp1, hp2, hbs]
    · have hvB : v ∈ B.map Prod.fst := List.mem_map.mpr ⟨(v, b), hmem, rfl⟩
      have hne : ¬ p.1 = v := fun h => hnd.1 (h ▸ hvB)
      rw [ih _ hnd.2 hmem]
      simp [updateOne, dictGet_dictSet, hne]

/-- Claim C6: the belief mapping is persisted verbatim: after
`update_belief_states`, the stored entry for each category supplied in
the mapping carries exactly that category's scalar score, both as the
`current` field and as the value of the newest history record. -/
theorem update_belief_states_spec (st : BSState) (B : List (String × ℚ)) (now : String)
    (hnd : (B.map Prod.fst).Nodup) (v : String) (b : ℚ) (hv : (v, b) ∈ B) :
    ∃ en : VectorEntry,
      dictGet (BlackSnowMemory.update_belief_states st B now).belief_states v = some en
      ∧ en.current = b ∧ en.history.getLast? = some ⟨now, b⟩ := by
  have h := updateAll_mem B st.belief_states now v b hnd hv
  exact ⟨_, h, rfl, histTrunc_getLast _ _⟩

theorem update_belief_states_spec_witness :
    ∃ en : VectorEntry,
      dictGet (BlackSnowMemory.update_belief_states (initState "2026-02-07")
        [("infra.energy.grid", 7 / 10)] "2026-02-07T12:00:00Z").belief_states
        "infra.energy.grid" = some en
      ∧ en.current = 7 / 10 ∧ en.history.getLast? = some ⟨"2026-02-07T12:00:00Z", 7 / 10⟩ :=
  update_belief_states_spec (initState "2026-02-07") [("infra.energy.grid", 7 / 10)]
    "2026-02-07T12:00:00Z" (by decide) "infra.energy.grid" (7 / 10) (by norm_num)

/-- Claim C8: after `update_belief_states`, every tracked vector stores a
history of at most 100 entries (given that the previous state already
satisfied this bound, as every state written by the program does), the
newest history record of each supplied vector carries the supplied
belief, its `current` field equals that belief, and vectors not
mentioned in the call are unchanged. -/
theorem update_belief_states_invariant (st : BSState) (B : List (String × ℚ)) (now : String)
    (hnd : (B.map Prod.fst).Nodup)
    (hpre : ∀ v en, dictGet st.belief_states v = some en → en.history.length ≤ 100) :
    (∀ v en, dictGet (BlackSnowMemory.update_belief_states st B now).belief_states v = some en →
      en.history.length ≤ 100)
    ∧ (∀ v b, (v, b) ∈ B →
      ∃ en, dictGet (BlackSnowMemory.update_belief_states st B now).belief_states v = some en
        ∧ en.history.getLast? = some ⟨now, b⟩ ∧ en.current = b)
    ∧ (∀ v, v ∉ B.map Prod.fst →
      dictGet (BlackSnowMemory.update_belief_states st B now).belief_states v
        = dictGet st.belief_states v) := by
  refine ⟨?_, ?_, ?_⟩
  · intro v en h
    by_cases hmem : v ∈ B.map Prod.fst
    · obtain ⟨pair, hpair, hfst⟩ := List.mem_map.mp hmem
      have hvb : (v, pair.2) ∈ B := by
        rw [← hfst, Prod.mk.eta]
        exact hpair
      rw [show (BlackSnowMemory.update_belief_states st B now).belief_states
            = B.foldl (fun bs p => updateOne bs p.1 p.2 now) st.belief_states from rfl,
          updateAll_mem B st.belief_states now v pair.2 hnd hvb] at h
      cases h
      exact histTrunc_length _
    · rw [show (BlackSnowMemory.update_belief_states st B now).belief_states
            = B.foldl (fun bs p => updateOne bs p.1 p.2 now) st.belief_states from rfl,
          updateAll_notmem B st.belief_states now v hmem] at h
      exact hpre v en h
  · intro v b hv
    refine ⟨_, updateAll_mem B st.belief_states now v b hnd hv, ?_, rfl⟩
    exact histTrunc_getLast _ _
  · intro v hmem
    exact updateAll_notmem B st.belief_states now v hmem

theorem update_belief_states_invariant_witness :
    ∃ en, dictGet (BlackSnowMemory.update_belief_states (initState "2026-02-07")
        [("labor.union", 3 / 5)] "2026-02-07T12:00:00Z").belief_states "labor.union" = some en
      ∧ en.history.getLast? = some ⟨"2026-02-07T12:00:00Z", 3 / 5⟩ ∧ en.current = 3 / 5 :=
  (update_belief_states_invariant (initState "2026-02-07") [("labor.union", 3 / 5)]
      "2026-02-07T12:00:00Z" (by decide)
      (fun v en h => by simp [initState, dictGet] at h)).2.1
    "labor.union" (3 / 5) (by norm_num)

-- ===========================================================================
-- local-opportunity-radar-kashmir/scripts/lor.py : LOR_Engine
-- ===========================================================================

/-- The user profile loaded from YAML in `lor.py`. Fields read with
`profile[...]` are required; fields read with `profile.get(...)` are
optional and carry their defaults at the use sites. -/
structure Profile where
  district : Option String
  education : String
  age : Int
  skills : List String
  hide_ineligible : Option Bool
deriving DecidableEq

/-- An opportunity record as consumed by `calculate_eligibility`;
`action_needed` models the optional `"Action Needed"` key. -/
structure Opportunity where
  title : String
  location : String
  pay : String
  deadline : String
  district : Option String
  max_age : Option Int
  min_education : Option String
  required_skills : Option (List String)
  action_needed : Option String
deriving DecidableEq

/-- The result dictionary returned by `calculate_eligibility`. -/
structure EligResult where
  title : String
  location : String
  pay : String
  deadline : String
  status : String
  reasons : List String
  score : ℚ
  confidence : String
deriving DecidableEq

/-- The `edu_rank` dictionary lookup with default 0:
`{"10th": 1, "12th": 2, "Graduate": 3, "Post-Graduate": 4}.get(e, 0)`. -/
def edu_rank (e : String) : Nat :=
  if e = "10th" then 1
  else if e = "12th" then 2
  else if e = "Graduate" then 3
  else if e = "Post-Graduate" then 4
  else 0

/-- `match_count` in `calculate_eligibility`:
`sum(1 for s in req_skills if s.lower() in [p.lower() for p in skills])`. -/
def matchCount (P : Profile) (req : List String) : Nat :=
  (req.filter (fun s => (P.skills.map (fun p => p.toLower)).contains s.toLower)).length

/-- The skill factor applied to the score: `0.5 + 0.5 * skill_score` when
required skills are listed (`skill_score = match_count / len(req)`), and
no change otherwise. -/
def skillFactor (P : Profile) (opp : Opportunity) : ℚ :=
  if (opp.required_skills.getD []) = [] then 1
  else 1 / 2 + 1 / 2 * ((matchCount P (opp.required_skills.getD []) : ℚ)
    / ((opp.required_skills.getD []).length : ℚ))

/-- The unrounded score of `calculate_eligibility`: start at `1.0`,
multiply by the skill factor, multiply by `0.8` when the opportunity has
an `"Action Needed"` entry. -/
def rawScore (P : Profile) (opp : Opportunity) : ℚ :=
  skillFactor P opp * (if opp.action_needed.isSome then 4 / 5 else 1)

/-- Round half to even at the integer level, on the exact rational value
(Python `round` uses banker's rounding; float representation error is
not modelled, and the claims proved here depend only on half-ulp
bounds). -/
def roundEven (x : ℚ) : ℤ :=
  if x - ⌊x⌋ < 1 / 2 then ⌊x⌋
  else if 1 / 2 < x - ⌊x⌋ then ⌊x⌋ + 1
  else if ⌊x⌋ % 2 = 0 then ⌊x⌋ else ⌊x⌋ + 1

/-- Python `round(x, 2)`. -/
def roundTo2 (x : ℚ) : ℚ := (roundEven (100 * x) : ℚ) / 100

/-- `LOR_Engine.calculate_eligibility` from `lor.py`: hard filters on
district, age and education return `None`; otherwise the score is the
blended product, results scoring below the `0.65` alert threshold are
returned as `None` when `hide_ineligible` (default true) is set, and the
returned record carries the score rounded to two decimals. -/
def LOR_Engine.calculate_eligibility (P : Profile) (opp : Opportunity) :
    Option EligResult :=
  if P.district.getD "All" ≠ "All" ∧ opp.district.getD "All" ≠ P.district.getD "All"
      ∧ opp.district.getD "All" ≠ "All" then none
  else if opp.max_age.getD 40 < P.age then none
  else if edu_rank P.education < edu_rank (opp.min_education.getD "10th") then none
  else if rawScore P opp < 13 / 20 then
    if P.hide_ineligible.getD true = true then none
    else some ⟨opp.title, opp.location, opp.pay, opp.deadline, "❌ Low Match",
      (opp.action_needed.map (fun a => [a])).getD [], roundTo2 (rawScore P opp),
      if 4 / 5 < rawScore P opp then "High" else "Medium"⟩
  else some ⟨opp.title, opp.location, opp.pay, opp.deadline,
    (if opp.action_needed.isSome then "⚠️ Borderline" else "✅ Eligible"),
    (opp.action_needed.map (fun a => [a])).getD [], roundTo2 (rawScore P opp),
    if 4 / 5 < rawScore P opp then "High" else "Medium"⟩

theorem roundEven_ge (a : ℤ) (x : ℚ) (h : (a : ℚ) ≤ x) : a ≤ roundEven x := by
  have hf : a ≤ ⌊x⌋ := Int.le_floor.mpr h
  unfold roundEven
  split_ifs <;> omega

theorem roundEven_le (a : ℤ) (x : ℚ) (h : x ≤ (a : ℚ)) : roundEven x ≤ a := by
  have hfl := Int.floor_le x
  have hf : ⌊x⌋ ≤ a := by exact_mod_cast le_trans hfl h
  have hstep : ¬ x - ⌊x⌋ < 1 / 2 → ⌊x⌋ < a := by
    intro h1
    rcases lt_or_eq_of_le hf with hlt | heq
    · exact hlt
    · exfalso
      apply h1
      have hxa : x ≤ ((⌊x⌋ : ℤ) : ℚ) := by rw [heq]; exact h
      linarith
  unfold roundEven
  split_ifs with h1 h2 h3
  · exact hf
  · have := hstep h1
    omega
  · exact hf
  · have := hstep h1
    omega

theorem roundTo2_ge (a : ℤ) (x : ℚ) (h : (a : ℚ) ≤ 100 * x) : (a : ℚ) / 100 ≤ roundTo2 x := by
  have h1 : a ≤ roundEven (100 * x) := roundEven_ge a (100 * x) h
  have h2 : (a : ℚ) ≤ (roundEven (100 * x) : ℚ) := by exact_mod_cast h1
  unfold roundTo2
  linarith

theorem roundTo2_le (a : ℤ) (x : ℚ) (h : 100 * x ≤ (a : ℚ)) : roundTo2 x ≤ (a : ℚ) / 100 := by
  have h1 : roundEven (100 * x) ≤ a := roundEven_le a (100 * x) h
  have h2 : (roundEven (100 * x) : ℚ) ≤ (a : ℚ) := by exact_mod_cast h1
  unfold roundTo2
  linarith

theorem skillFactor_bounds (P : Profile) (opp : Opportunity) :
    1 / 2 ≤ skillFactor P opp ∧ skillFactor P opp ≤ 1 := by
  unfold skillFactor
  split_ifs with h
  · norm_num
  · have hlen : (0 : ℚ) < ((opp.required_skills.getD []).length : ℚ) := by
      exact_mod_cast List.length_pos.mpr h
    have hmc : (matchCount P (opp.required_skills.getD []) : ℚ)
        ≤ ((opp.required_skills.getD []).length : ℚ) := by
      exact_mod_cast List.length_filter_le _ _
    have h0 : (0 : ℚ) ≤ (matchCount P (opp.required_skills.getD []) : ℚ) := by positivity
    have hq0 : 0 ≤ (matchCount P (opp.required_skills.getD []) : ℚ)
        / ((opp.required_skills.getD []).length : ℚ) := div_nonneg h0 hlen.le
    have hq1 : (matchCount P (opp.required_skills.getD []) : ℚ)
        / ((opp.required_skills.getD []).length : ℚ) ≤ 1 := (div_le_one hlen).mpr hmc
    constructor <;> nlinarith

theorem rawScore_bounds (P : Profile) (opp : Opportunity) :
    2 / 5 ≤ rawScore P opp ∧ rawScore P opp ≤ 1 := by
  obtain ⟨h1, h2⟩ := skillFactor_bounds P opp
  unfold rawScore
  split_ifs <;> constructor <;> nlinarith

/-- Claim C9: every record returned by `calculate_eligibility` has a
score in `(0, 1]`, and when `hide_ineligible` is absent or true, every
returned record has score at least `0.65` (lower-scoring results are
returned as `None`). -/
theorem calculate_eligibility_spec (P : Profile) (opp : Opportunity) (r : EligResult)
    (h : LOR_Engine.calculate_eligibility P opp = some r) :
    (0 < r.score ∧ r.score ≤ 1)
    ∧ (P.hide_ineligible.getD true = true → 13 / 20 ≤ r.score) := by
  obtain ⟨hs1, hs2⟩ := rawScore_bounds P opp
  have hb1 : 0 < roundTo2 (rawScore P opp) := by
    have h40 : ((40 : ℤ) : ℚ) ≤ 100 * rawScore P opp := by push_cast; linarith
    have := roundTo2_ge 40 (rawScore P opp) h40
    have h40d : (0 : ℚ) < ((40 : ℤ) : ℚ) / 100 := by norm_num
    linarith
  have hb2 : roundTo2 (rawScore P opp) ≤ 1 := by
    have h100 : 100 * rawScore P opp ≤ ((100 : ℤ) : ℚ) := by push_cast; linarith
    have := roundTo2_le 100 (rawScore P opp) h100
    have h100d : ((100 : ℤ) : ℚ) / 100 = 1 := by norm_num
    linarith
  unfold LOR_Engine.calculate_eligibility at h
  split_ifs at h with h1 h2 h3 h4 h5 c1 c2 c3 c4 <;>
  first
    | exact Option.noConfusion h
    | (simp only [Option.some.injEq] at h
       subst h
       refine ⟨⟨hb1, hb2⟩, fun hh => ?_⟩
       first
         | exact absurd hh h5
         | (show (13 : ℚ) / 20 ≤ roundTo2 (rawScore P opp)
            have h65 : ((65 : ℤ) : ℚ) ≤ 100 * rawScore P opp := by
              push_cast
              have := not_lt.mp h4
              linarith
            have hr65 := roundTo2_ge 65 (rawScore P opp) h65
            have h65d : ((65 : ℤ) : ℚ) / 100 = 13 / 20 := by norm_num
            linarith))

/-- A concrete profile matching the mock default in `lor.py`. -/
def profileEx : Profile :=
  ⟨some "Kupwara", "Graduate", 24, ["python", "data-entry", "coordination"], none⟩

/-- A concrete opportunity with no required skills. -/
def oppEx : Opportunity :=
  ⟨"NGO Field Enumerator", "Handwara", "₹12,000/month", "3 days",
   some "Kupwara", some 30, some "Graduate", none, none⟩

theorem calculate_eligibility_spec_witness :
    (0 < (⟨"NGO Field Enumerator", "Handwara", "₹12,000/month", "3 days",
        "✅ Eligible", [], 1, "High"⟩ : EligResult).score
      ∧ (⟨"NGO Field Enumerator", "Handwara", "₹12,000/month", "3 days",
        "✅ Eligible", [], 1, "High"⟩ : EligResult).score ≤ 1)
    ∧ (profileEx.hide_ineligible.getD true = true →
      13 / 20 ≤ (⟨"NGO Field Enumerator", "Handwara", "₹12,000/month", "3 days",
        "✅ Eligible", [], 1, "High"⟩ : EligResult).score) :=
  calculate_eligibility_spec profileEx oppEx
    ⟨"NGO Field Enumerator", "Handwara", "₹12,000/month", "3 days",
     "✅ Eligible", [], 1, "High"⟩ (by
      have hrs : rawScore profileEx oppEx = 1 := by
        unfold rawScore skillFactor oppEx
        norm_num
      have hrt : roundTo2 (1 : ℚ) = 1 := by
        unfold roundTo2 roundEven
        norm_num
      unfold LOR_Engine.calculate_eligibility
      rw [hrs, hrt]
      norm_num [profileEx, oppEx, edu_rank])

/-- `get_pay_val` from `generate_daily_report` in `lor.py`. Its body is
`int(re.sub(r..., "", x["pay"]))`, but `lor.py` never imports `re` (its
imports are `yaml`, `os`, `json` and `datetime.datetime`), so evaluating
the body raises `NameError`, which the bare `except` turns into `0`; the
raising body is modelled by the `Except.error` value. -/
def get_pay_val (x : EligResult) : Int :=
  match (Except.error "NameError: name re is not defined" : Except String Int) with
  | Except.ok v => v
  | Except.error _ => 0

/-- One insertion step of a stable descending sort by `get_pay_val`:
an element is placed before the first element with a strictly smaller
key, matching the stable behaviour of Python `list.sort(key=...,
reverse=True)` on equal keys. -/
def insertByPayDesc (x : EligResult) : List EligResult → List EligResult
  | [] => [x]
  | y :: ys => if get_pay_val y ≤ get_pay_val x then x :: y :: ys else y :: insertByPayDesc x ys

/-- Stable sort by pay, descending: the model of
`eligible_list.sort(key=get_pay_val, reverse=True)`. -/
def sortByPayDesc : List EligResult → List EligResult
  | [] => []
  | x :: xs => insertByPayDesc x (sortByPayDesc xs)

/-- The eligible list built by `generate_daily_report`. -/
def eligible_list (P : Profile) (opps : List Opportunity) : List EligResult :=
  opps.filterMap (LOR_Engine.calculate_eligibility P)

/-- The sequence of opportunities rendered by `generate_daily_report`:
the sorted eligible list, truncated to the first 7 entries. -/
def generate_daily_report_list (P : Profile) (opps : List Opportunity) : List EligResult :=
  (sortByPayDesc (eligible_list P opps)).take 7

theorem sortByPayDesc_id (l : List EligResult) : sortByPayDesc l = l := by
  induction l with
  | nil => rfl
  | cons x xs ih =>
    rw [sortByPayDesc, ih]
    cases xs with
    | nil => rfl
    | cons y ys =>
      simp [insertByPayDesc, get_pay_val]

/-- Claim C7: `get_pay_val` returns 0 for every input (the `re` name is
undefined in `lor.py` and the resulting exception is swallowed), so the
pay sort leaves the eligible list in its original relative order, and
the report renders the eligible opportunities in input order. -/
theorem get_pay_val_spec (P : Profile) (opps : List Opportunity) (x : EligResult) :
    get_pay_val x = 0
    ∧ sortByPayDesc (eligible_list P opps) = eligible_list P opps
    ∧ generate_daily_report_list P opps = (eligible_list P opps).take 7 := by
  refine ⟨rfl, sortByPayDesc_id _, ?_⟩
  unfold generate_daily_report_list
  rw [sortByPayDesc_id]
